import Mathlib

/-!
Verification development for the `jpleph` Go library (JPL DE ephemeris reader).

The source functions `interp`, `State`, `Pleph`, `quantityDimension` and the
kernel-geometry computation of `initEphemeris` (all in `binary_reader.go`) are
embedded as Lean functions.  Floating-point doubles are modelled by exact
rationals `ℚ`; the open file is modelled as a total function from record index
and coefficient index to the decoded double, plus an abstract byte-swap
involution standing for the bit-level `swapBytes64`.  File seeks/reads are
recorded in an explicit log `List (ℕ × ℕ)` of `(byteOffset, doublesRead)`
pairs.  Go `panic` is modelled by a distinguished `panic` outcome, Go error
returns by a `fail` outcome.  `uint32` arithmetic that can overflow (the
kernel-size computation, the seek-offset multiplication) is reduced `% 2^32`
exactly where Go wraps.
-/

/-- Errors of the Go package (`api.go`): only the ones the embedded core can
return are listed. -/
inductive JplError where
  | outsideRange
  | quantityNotInEphemeris
  | invalidIndex
  deriving DecidableEq, Repr

/-- Outcome of a Go function that may panic or return an error. -/
inductive POut (α : Type) where
  | panic : POut α
  | fail : JplError → POut α
  | ok : α → POut α

/-- Pointwise update of a function `ℕ → ℚ`, modelling an array store. -/
def updf (f : ℕ → ℚ) (k : ℕ) (v : ℚ) : ℕ → ℚ := fun j => if j = k then v else f j

/-- The all-zero function, modelling a zeroed Go slice/array. -/
def zeroFn : ℕ → ℚ := fun _ => 0

/-- `interpolationInfo` (api.go): the Chebyshev recurrence cache.  The two
fixed-size arrays `posnCoeff`/`velCoeff` of length `maxCheby = 18` are
modelled as total functions. -/
structure IInfo where
  posn : ℕ → ℚ
  vel : ℕ → ℚ
  nPosn : ℕ
  nVel : ℕ
  twot : ℚ

/-- The interpolation cache as `initEphemeris` builds it: Go zero value, then
`posnCoeff[0]=1`, `posnCoeff[1]=-2` (sentinel outside `[-1,1]`),
`velCoeff[0]=0`, `velCoeff[1]=1`. -/
def initIInfo : IInfo where
  posn := fun j => if j = 0 then 1 else if j = 1 then -2 else 0
  vel := fun j => if j = 0 then 0 else if j = 1 then 1 else 0
  nPosn := 0
  nVel := 0
  twot := 0

/-- Truncation toward zero of a rational, as Go's `math.Modf` integer part. -/
def ratTrunc (q : ℚ) : ℤ := if 0 ≤ q then ⌊q⌋ else ⌈q⌉

/-- The sub-interval index `l` of `interp`: `l := uint(intPart(na*t0))`,
then decremented when it equals `na` (the `t0 == 1` edge case). -/
def interpSubIdx (t0 : ℚ) (na : ℕ) : ℕ :=
  let l0 := (ratTrunc ((na : ℚ) * t0)).toNat
  if l0 = na then l0 - 1 else l0

/-- The normalized time `tc` of `interp`: `2*fracPart(na*t0) - 1`, replaced by
`1.0` in the `l == na` edge case. -/
def interpTc (t0 : ℚ) (na : ℕ) : ℚ :=
  let temp := (na : ℚ) * t0
  let l0 := (ratTrunc temp).toNat
  if l0 = na then 1 else 2 * (temp - (ratTrunc temp : ℚ)) - 1

/-- The cache-invalidation step of `interp`: when `tc` differs from the cached
`posnCoeff[1]`, reset both valid counts to 2, store `tc`, and cache `2*tc`. -/
def resetInfo (s : IInfo) (tc : ℚ) : IInfo :=
  if tc ≠ s.posn 1 then
    { s with nPosn := 2, nVel := 2, posn := updf s.posn 1 tc, twot := tc + tc }
  else s

/-- The position-recurrence loop of `interp`:
`for i := 2; i < ncf; i++ { posn[i] = twot*posn[i-1] - posn[i-2] }`,
expressed as `k` sequential stores at indices `2, …, k+1`. -/
def posnIter (tw : ℚ) (g : ℕ → ℚ) : ℕ → ℕ → ℚ
  | 0 => g
  | k + 1 =>
    updf (posnIter tw g k) (k + 2)
      (tw * posnIter tw g k (k + 1) - posnIter tw g k k)

/-- The velocity-recurrence loop of `interp`:
`vel[i] = twot*vel[i-1] + 2*posn[i-1] - vel[i-2]`, reading the (already
extended) position array `p`. -/
def velIter (tw : ℚ) (p : ℕ → ℚ) (g : ℕ → ℚ) : ℕ → ℕ → ℚ
  | 0 => g
  | k + 1 =>
    updf (velIter tw p g k) (k + 2)
      (tw * velIter tw p g k (k + 1) + 2 * p (k + 1) - velIter tw p g k k)

/-- The acceleration-recurrence loop of `interp` (velocityFlag 3 only):
`acc[i] = 4*vel[i-1] + twot*acc[i-1] - acc[i-2]` over a local zeroed array. -/
def accIter (tw : ℚ) (v : ℕ → ℚ) (g : ℕ → ℚ) : ℕ → ℕ → ℚ
  | 0 => g
  | k + 1 =>
    updf (accIter tw v g k) (k + 2)
      (4 * v (k + 1) + tw * accIter tw v g k (k + 1) - accIter tw v g k k)

/-- `if nPosnAvail < ncf` extension phase of `interp`. -/
def posnPhase (s : IInfo) (ncf : ℕ) : IInfo :=
  if s.nPosn < ncf then
    { s with posn := posnIter s.twot s.posn (ncf - 2), nPosn := ncf }
  else s

/-- `if nVelAvail < ncf` extension phase of `interp`. -/
def velPhase (s : IInfo) (ncf : ℕ) : IInfo :=
  if s.nVel < ncf then
    { s with vel := velIter s.twot s.posn s.vel (ncf - 2), nVel := ncf }
  else s

/-- Accumulation `acc += f j * g j` over `j = a, …, a+n-1`, as the summation
loops of `interp` (`f` the polynomial values, `g` the coefficients). -/
def dotRange (f g : ℕ → ℚ) (a n : ℕ) : ℚ :=
  (List.range' a n).foldl (fun acc j => acc + f j * g j) 0

/-- `interp` (binary_reader.go): Chebyshev interpolation over one coefficient
block.  `none` models the two Go panics (`ncf >= maxCheby` with
`maxCheby = 18`, and `tc` outside `[-1,1]`).  The returned list is the
sequence of values written to `posvel`, and the returned `IInfo` is the
mutated recurrence cache. -/
def interp (s : IInfo) (coef : ℕ → ℚ) (t0 t1 : ℚ) (ncf ncm na velocityFlag : ℕ) :
    Option (List ℚ × IInfo) :=
  if 18 ≤ ncf then none
  else
    let l := interpSubIdx t0 na
    let tc := interpTc t0 na
    if tc < -1 ∨ 1 < tc then none
    else
      let s1 := posnPhase (resetInfo s tc) ncf
      let pos := (List.range ncm).map fun i =>
        dotRange s1.posn (fun j => coef (ncf * (i + l * ncm) + j)) 0 ncf
      if velocityFlag ≤ 1 then some (pos, s1)
      else
        let s2 := velPhase s1 ncf
        let vfac := ((na : ℚ) + (na : ℚ)) / t1
        let vel := (List.range ncm).map fun i =>
          dotRange s2.vel (fun j => coef (ncf * (i + l * ncm) + j)) 1 (ncf - 1) * vfac
        if velocityFlag = 3 then
          let ac := accIter s2.twot s2.vel zeroFn (ncf - 2)
          let acc := (List.range ncm).map fun i =>
            dotRange ac (fun j => coef (ncf * (i + l * ncm) + j)) 2 (ncf - 2) * vfac * vfac
          some (pos ++ vel ++ acc, s2)
        else some (pos ++ vel, s2)

/-- Chebyshev polynomials of the first kind by the recurrence `interp` uses:
`T 0 = 1`, `T 1 = tc`, `T (n+2) = 2*tc*T (n+1) - T n`. -/
def chebT (tc : ℚ) : ℕ → ℚ
  | 0 => 1
  | 1 => tc
  | n + 2 => (tc + tc) * chebT tc (n + 1) - chebT tc n

/-- Derivatives of Chebyshev polynomials by the recurrence `interp` uses:
`U 0 = 0`, `U 1 = 1`, `U (n+2) = 2*tc*U (n+1) + 2*T (n+1) - U n`. -/
def chebU (tc : ℚ) : ℕ → ℚ
  | 0 => 0
  | 1 => 1
  | n + 2 => (tc + tc) * chebU tc (n + 1) + 2 * chebT tc (n + 1) - chebU tc n

/-- Second derivatives by the recurrence `interp` uses:
`A 0 = A 1 = 0`, `A (n+2) = 4*U (n+1) + 2*tc*A (n+1) - A n`. -/
def chebA (tc : ℚ) : ℕ → ℚ
  | 0 => 0
  | 1 => 0
  | n + 2 => 4 * chebU tc (n + 1) + (tc + tc) * chebA tc (n + 1) - chebA tc n

/-- Stateless recomputation of `interp`'s outputs: identical control flow and
summations, but every polynomial value recomputed from scratch via
`chebT`/`chebU`/`chebA` instead of the cached arrays. -/
def interpStateless (coef : ℕ → ℚ) (t0 t1 : ℚ) (ncf ncm na velocityFlag : ℕ) :
    Option (List ℚ) :=
  if 18 ≤ ncf then none
  else
    let l := interpSubIdx t0 na
    let tc := interpTc t0 na
    if tc < -1 ∨ 1 < tc then none
    else
      let pos := (List.range ncm).map fun i =>
        dotRange (chebT tc) (fun j => coef (ncf * (i + l * ncm) + j)) 0 ncf
      if velocityFlag ≤ 1 then some pos
      else
        let vfac := ((na : ℚ) + (na : ℚ)) / t1
        let vel := (List.range ncm).map fun i =>
          dotRange (chebU tc) (fun j => coef (ncf * (i + l * ncm) + j)) 1 (ncf - 1) * vfac
        if velocityFlag = 3 then
          let acc := (List.range ncm).map fun i =>
            dotRange (chebA tc) (fun j => coef (ncf * (i + l * ncm) + j)) 2 (ncf - 2) * vfac * vfac
          some (pos ++ vel ++ acc)
        else some (pos ++ vel)

/-- Output list of an `interp` call (`none` when it panicked). -/
def interpOut (r : Option (List ℚ × IInfo)) : Option (List ℚ) :=
  r.map Prod.fst

/-- Recurrence cache after an `interp` call; on panic the cache is untouched
(both Go panics fire before any mutation), so the caller's state `s` stands. -/
def interpNext (s : IInfo) (r : Option (List ℚ × IInfo)) : IInfo :=
  match r with
  | some (_, s2) => s2
  | none => s

/-- Invariant of the recurrence cache: seed entries are in place, and every
entry counted valid is the corresponding Chebyshev value at the cached time
`posn 1`.  The freshly initialized cache (valid counts 0, sentinel `-2`)
satisfies it. -/
def IInfoInv (s : IInfo) : Prop :=
  s.posn 0 = 1 ∧ s.vel 0 = 0 ∧ s.vel 1 = 1 ∧
  (s.nPosn < 2 → s.posn 1 = -2) ∧
  (2 ≤ s.nPosn →
    s.twot = s.posn 1 + s.posn 1 ∧ 2 ≤ s.nVel ∧
    (∀ i, i < s.nPosn → s.posn i = chebT (s.posn 1) i) ∧
    (∀ i, i < s.nVel → s.vel i = chebU (s.posn 1) i))

/-- `quantityDimension` (binary_reader.go): components per quantity;
nutations (idx 11) have 2, TT-TDB (idx 14) has 1, everything else 3. -/
def quantityDimension (idx : ℕ) : ℕ :=
  if idx = 11 then 2 else if idx = 14 then 1 else 3

/-- `jplEphData` (api.go), restricted to the fields the embedded core reads
or writes.  `file r j` is the `j`-th double of coefficient record `r` as
decoded in the default byte order; `swapFn` is an abstract stand-in for the
bit-level `swapBytes64` applied when `swapBytes` is set. -/
structure Eph where
  ephemStart : ℚ
  ephemEnd : ℚ
  ephemStep : ℚ
  au : ℚ
  emrat : ℚ
  ipt : ℕ → ℕ → ℕ
  recsize : ℕ
  ncoeff : ℕ
  swapBytes : Bool
  file : ℕ → ℕ → ℚ
  swapFn : ℚ → ℚ
  currCacheLoc : ℕ
  cache : ℕ → ℚ
  pvsun : ℕ → ℚ
  pvsunT : ℚ
  iinfo : IInfo

/-- Mutable state threaded through `State`'s interpolation loop: the `pv`
body table, the Sun vector, the `nut` output slice, and the recurrence
cache. -/
structure SState where
  pv : ℕ → ℕ → ℚ
  pvsun : ℕ → ℚ
  nut : ℕ → ℚ
  iinfo : IInfo

/-- Overwrite the first `vals.length` entries of a row, as `interp` writing
into a destination slice. -/
def writePre (f : ℕ → ℚ) (vals : List ℚ) : ℕ → ℚ :=
  fun j => if j < vals.length then vals.getD j 0 else f j

/-- `dest[j] *= c` for `j < n`: the km→AU conversion loop of `State`. -/
def scalePre (f : ℕ → ℚ) (n : ℕ) (c : ℚ) : ℕ → ℚ :=
  fun j => if j < n then f j * c else f j

/-- Replace row `r` of the body table. -/
def setRow (pv : ℕ → ℕ → ℚ) (r : ℕ) (f : ℕ → ℚ) : ℕ → ℕ → ℚ :=
  fun i j => if i = r then f j else pv i j

/-- The all-zero body table, as `Pleph`'s freshly declared `pv` array. -/
def zeroPv : ℕ → ℕ → ℚ := fun _ _ => 0

/-- One iteration of `State`'s inner loop, at granularity `nIntervals` and
item `i` (0–9 bodies, 10–13 special quantities, 14 the Sun pseudo-row).
Returns `panic` when `interp` panics. -/
def stateStep (ipt : ℕ → ℕ → ℕ) (lst : ℕ → ℕ) (recompute : Bool) (cache : ℕ → ℚ)
    (t0 t1 aufac : ℚ) (nIntervals i : ℕ) (σ : SState) : POut SState :=
  let quantities : ℕ := if i = 14 then (if recompute then 3 else 0) else lst i
  let row : ℕ := if i = 14 then 10 else if i < 10 then i else i + 1
  if nIntervals = ipt row 2 ∧ quantities ≠ 0 then
    match interp σ.iinfo (fun j => cache (ipt row 0 - 1 + j)) t0 t1
        (ipt row 1) (quantityDimension (i + 1)) nIntervals quantities with
    | none => POut.panic
    | some (out, ii2) =>
      if i < 10 then
        POut.ok { σ with
          iinfo := ii2
          pv := setRow σ.pv i (scalePre (writePre (σ.pv i) out) (quantities * 3) aufac) }
      else if i = 14 then
        POut.ok { σ with
          iinfo := ii2
          pvsun := scalePre (writePre σ.pvsun out) (quantities * 3) aufac }
      else
        POut.ok { σ with iinfo := ii2, nut := writePre σ.nut out }
  else POut.ok σ

/-- Panic-propagating wrapper around `stateStep`. -/
def loopStep (ipt : ℕ → ℕ → ℕ) (lst : ℕ → ℕ) (recompute : Bool) (cache : ℕ → ℚ)
    (t0 t1 aufac : ℚ) (nIntervals i : ℕ) (acc : POut SState) : POut SState :=
  match acc with
  | POut.ok σ => stateStep ipt lst recompute cache t0 t1 aufac nIntervals i σ
  | x => x

/-- `State`'s nested loop: `for nIntervals = 1,2,4,8` × `for i = 0..14`. -/
def runLoop (ipt : ℕ → ℕ → ℕ) (lst : ℕ → ℕ) (recompute : Bool) (cache : ℕ → ℚ)
    (t0 t1 aufac : ℚ) (σ0 : SState) : POut SState :=
  [1, 2, 4, 8].foldl
    (fun acc n =>
      (List.range 15).foldl
        (fun a i => loopStep ipt lst recompute cache t0 t1 aufac n i a) acc)
    (POut.ok σ0)

/-- The barycentre correction at the end of `State` (`bary == 0`):
`pv[i][j] -= pvsun[j]` for bodies `i < 9` and `j < list[i]*3`. -/
def barySub (lst : ℕ → ℕ) (pvsun : ℕ → ℚ) (pv : ℕ → ℕ → ℚ) : ℕ → ℕ → ℚ :=
  fun i j => if i < 9 ∧ j < lst i * 3 then pv i j - pvsun j else pv i j

/-- `blockLoc := (et - ephemStart) / ephemStep` of `State`. -/
def blockLocOf (eph : Eph) (et : ℚ) : ℚ :=
  (et - eph.ephemStart) / eph.ephemStep

/-- `nr := uint32(blockLoc)` (truncation; nonnegative in range). -/
def rawRecIdx (eph : Eph) (et : ℚ) : ℕ :=
  (ratTrunc (blockLocOf eph et)).toNat

/-- `t[0] := blockLoc - float64(nr)`. -/
def rawFrac (eph : Eph) (et : ℚ) : ℚ :=
  blockLocOf eph et - (rawRecIdx eph et : ℚ)

/-- The record index after `State`'s boundary adjustment: an exactly-zero
fraction steps back one record, except at record 0. -/
def adjRecIdx (eph : Eph) (et : ℚ) : ℕ :=
  if rawFrac eph et = 0 ∧ rawRecIdx eph et ≠ 0 then rawRecIdx eph et - 1
  else rawRecIdx eph et

/-- The interval fraction after `State`'s boundary adjustment (`(0,1]`
convention away from record 0). -/
def adjFrac (eph : Eph) (et : ℚ) : ℚ :=
  if rawFrac eph et = 0 ∧ rawRecIdx eph et ≠ 0 then 1
  else rawFrac eph et

/-- `State` (binary_reader.go): epoch-range check, record-cache reload,
interpolation loop, barycentre correction.  On success returns the updated
ephemeris handle, the body table, the `nut` slice contents, and the log of
`(seekOffset, doublesRead)` file operations performed.  The out-of-range
early return precedes every file operation and every mutation, so `fail`
carries nothing. -/
def State (eph : Eph) (et : ℚ) (lst : ℕ → ℕ) (pv : ℕ → ℕ → ℚ) (nut : ℕ → ℚ)
    (bary : ℕ) : POut (Eph × (ℕ → ℕ → ℚ) × (ℕ → ℚ) × List (ℕ × ℕ)) :=
  if et < eph.ephemStart ∨ eph.ephemEnd < et then POut.fail JplError.outsideRange
  else
    let nr := adjRecIdx eph et
    let t0 := adjFrac eph et
    let cache2 : ℕ → ℚ :=
      if nr ≠ eph.currCacheLoc then
        fun j => if eph.swapBytes then eph.swapFn (eph.file nr j) else eph.file nr j
      else eph.cache
    let log : List (ℕ × ℕ) :=
      if nr ≠ eph.currCacheLoc then [((nr + 2) * eph.recsize % 2 ^ 32, eph.ncoeff)]
      else []
    let recompute : Bool := if eph.pvsunT = et then false else true
    match runLoop eph.ipt lst recompute cache2 t0 eph.ephemStep (1 / eph.au)
        { pv := pv, pvsun := eph.pvsun, nut := nut, iinfo := eph.iinfo } with
    | POut.panic => POut.panic
    | POut.fail e => POut.fail e
    | POut.ok σ =>
      let pvOut := if bary = 0 then barySub lst σ.pvsun σ.pv else σ.pv
      POut.ok
        ({ eph with
            currCacheLoc := nr
            cache := cache2
            pvsun := σ.pvsun
            pvsunT := et
            iinfo := σ.iinfo }, pvOut, σ.nut, log)

/-- Pointwise update of a natural-valued function, modelling a store into the
`list [14]int` request-mask array. -/
def updN (f : ℕ → ℕ) (k v : ℕ) : ℕ → ℕ := fun j => if j = k then v else f j

/-- The two `list[]`-marking passes of `Pleph` for one body code `k`
(0-based): planets/Moon, Moon↔EMB interdependence. -/
def listSet (l : ℕ → ℕ) (k lv : ℕ) : ℕ → ℕ :=
  let l1 := if k ≤ 9 then updN l k lv else l
  let l2 := if k = 9 then updN l1 2 lv else l1
  let l3 := if k = 2 then updN l2 9 lv else l2
  if k = 12 then updN l3 2 lv else l3

/-- The request mask `Pleph` builds for a (target, center) pair of body
codes in 1–13. -/
def buildList (ntarg ncent : ℤ) (lv : ℕ) : ℕ → ℕ :=
  listSet (listSet (fun _ => 0) (ntarg - 1).toNat lv) (ncent - 1).toNat lv

/-- Post-`State` fix-ups of `Pleph`: Sun row from `pvsun`, SSB row zero, EMB
row copy, the Earth/Moon special case, and the EMB→Earth / geocentric→SSB
Moon adjustments. -/
def plephFix (eph2 : Eph) (ntarg ncent : ℤ) (lst : ℕ → ℕ) (pv : ℕ → ℕ → ℚ) :
    ℕ → ℕ → ℚ :=
  let pvA := if ntarg = 11 ∨ ncent = 11 then
    setRow pv 10 (fun j => if j < 6 then eph2.pvsun j else pv 10 j) else pv
  let pvB := if ntarg = 12 ∨ ncent = 12 then
    setRow pvA 11 (fun j => if j < 6 then 0 else pvA 11 j) else pvA
  let pvC := if ntarg = 13 ∨ ncent = 13 then
    setRow pvB 12 (fun j => if j < 6 then pvB 2 j else pvB 12 j) else pvB
  if ntarg * ncent = 30 ∧ ntarg + ncent = 13 then
    setRow pvC 2 (fun j => if j < 6 then 0 else pvC 2 j)
  else
    let pvD := if lst 2 ≠ 0 then
      setRow pvC 2 (fun j =>
        if j < lst 2 * 3 then pvC 2 j - pvC 9 j / (1 + eph2.emrat) else pvC 2 j)
      else pvC
    if lst 9 ≠ 0 then
      setRow pvD 9 (fun j =>
        if j < lst 9 * 3 then pvD 9 j + pvD 2 j else pvD 9 j)
    else pvD

/-- `Pleph` (binary_reader.go): relative state of `ntarg` with respect to
`ncent`.  Returns the 6-entry `rrd` slice, the updated handle, and the file
operation log. -/
def Pleph (eph : Eph) (et : ℚ) (ntarg ncent : ℤ) (calcVelocity : ℕ) :
    POut (List ℚ × Eph × List (ℕ × ℕ)) :=
  let listVal : ℕ := if calcVelocity ≠ 0 then 2 else 1
  if ntarg = ncent then POut.ok (List.replicate 6 0, eph, [])
  else if 14 ≤ ntarg ∧ ntarg ≤ 17 then
    let qi := (ntarg - 14).toNat
    if 0 < eph.ipt (qi + 11) 1 then
      match State eph et (fun k => if k = qi + 10 then listVal else 0)
          zeroPv zeroFn 0 with
      | POut.panic => POut.panic
      | POut.fail e => POut.fail e
      | POut.ok (eph2, _, nut2, log) =>
        POut.ok ((List.range 6).map nut2, eph2, log)
    else POut.fail JplError.quantityNotInEphemeris
  else if 13 < ntarg ∨ 13 < ncent ∨ ntarg < 1 ∨ ncent < 1 then
    POut.fail JplError.invalidIndex
  else
    let lst := buildList ntarg ncent listVal
    match State eph et lst zeroPv zeroFn 1 with
    | POut.panic => POut.panic
    | POut.fail e => POut.fail e
    | POut.ok (eph2, pv, nut2, log) =>
      let pv2 := plephFix eph2 ntarg ncent lst pv
      POut.ok ((List.range 6).map (fun i =>
          if i < listVal * 3 then
            pv2 (ntarg - 1).toNat i - pv2 (ncent - 1).toNat i
          else nut2 i),
        eph2, log)

/-- `uint32` addition (wraps modulo `2^32`), as in `initEphemeris`'s
kernel-size accumulation. -/
def add32 (a b : ℕ) : ℕ := (a + b) % 2 ^ 32

/-- `uint32` multiplication (wraps modulo `2^32`). -/
def mul32 (a b : ℕ) : ℕ := a * b % 2 ^ 32

/-- The kernel-size computation of `initEphemeris`:
`kernelSize = 4; for i in 0..14 { kernelSize += 2*ipt[i][1]*ipt[i][2]*dim(i) }`
in `uint32` arithmetic. -/
def kernelSizeCalc (ipt : ℕ → ℕ → ℕ) : ℕ :=
  (List.range 15).foldl
    (fun ks i =>
      add32 ks (mul32 (mul32 (mul32 2 (ipt i 1)) (ipt i 2)) (quantityDimension i)))
    4

/-- `recsize := kernelSize * 4` of `initEphemeris` (uint32). -/
def recsizeCalc (ipt : ℕ → ℕ → ℕ) : ℕ := mul32 (kernelSizeCalc ipt) 4

/-- `ncoeff := kernelSize / 2` of `initEphemeris` (uint32 division). -/
def ncoeffCalc (ipt : ℕ → ℕ → ℕ) : ℕ := kernelSizeCalc ipt / 2

/-- Result type of the embedded `State`. -/
abbrev StateRes := Eph × (ℕ → ℕ → ℚ) × (ℕ → ℚ) × List (ℕ × ℕ)

/-- Result type of the embedded `Pleph`. -/
abbrev PlephRes := List ℚ × Eph × List (ℕ × ℕ)

/-- Whether an outcome is a normal return. -/
def isOkB {α : Type} : POut α → Bool
  | POut.ok _ => true
  | _ => false

/-- Whether an outcome is the `ErrOutsideRange` error return. -/
def isOutsideRangeB {α : Type} : POut α → Bool
  | POut.fail JplError.outsideRange => true
  | _ => false

/-- The `rrd` slice of a successful `Pleph` call. -/
def plephRrd (r : POut PlephRes) : Option (List ℚ) :=
  match r with
  | POut.ok (v, _, _) => some v
  | _ => none

/-- The file-operation log of a successful `Pleph` call. -/
def plephReads (r : POut PlephRes) : Option (List (ℕ × ℕ)) :=
  match r with
  | POut.ok (_, _, lg) => some lg
  | _ => none

/-- The file-operation log of a successful `State` call. -/
def stateReads (r : POut StateRes) : Option (List (ℕ × ℕ)) :=
  match r with
  | POut.ok (_, _, _, lg) => some lg
  | _ => none

/-- The updated handle of a successful `State` call (default `d` otherwise). -/
def stateEph (d : Eph) (r : POut StateRes) : Eph :=
  match r with
  | POut.ok (e, _, _, _) => e
  | _ => d

/-- Entry `j` of the resident coefficient cache after a successful `State`
call. -/
def stateCacheAt (r : POut StateRes) (j : ℕ) : Option ℚ :=
  match r with
  | POut.ok (e, _, _, _) => some (e.cache j)
  | _ => none

/-- How `Pleph` wraps a `State` result on the quantity path (targets 14–17):
the `rrd` slice it returns is exactly the `nut` slice `State` filled. -/
def plephQuantityResult (r : POut StateRes) : POut PlephRes :=
  match r with
  | POut.panic => POut.panic
  | POut.fail e => POut.fail e
  | POut.ok (eph2, _, nut2, lg) => POut.ok ((List.range 6).map nut2, eph2, lg)

/-- A minimal concrete open handle: 10-day span, 1-day step, no quantities
present (all IPT rows zero), fresh caches (sentinel `currCacheLoc`,
`pvsunT = -1e80`). -/
def ephA : Eph where
  ephemStart := 0
  ephemEnd := 10
  ephemStep := 1
  au := 1
  emrat := 813006 / 10000
  ipt := fun _ _ => 0
  recsize := 16
  ncoeff := 2
  swapBytes := false
  file := fun _ _ => 0
  swapFn := id
  currCacheLoc := 2 ^ 32 - 1
  cache := zeroFn
  pvsun := zeroFn
  pvsunT := -(10 ^ 80)
  iinfo := initIInfo

/-- `ephA` with a nutations IPT row having a positive coefficient count but
zero sub-intervals: `ipt[11] = (1, 3, 0)`. -/
def ephC1 : Eph :=
  { ephA with
    ipt := fun r c =>
      if r = 11 then (if c = 0 then 1 else if c = 1 then 3 else 0) else 0 }

/-- The IPT table of the real DE405 ephemeris (rows 13/14 absent). -/
def iptDE405 : ℕ → ℕ → ℕ := fun r c =>
  (([[3, 14, 4], [171, 10, 2], [231, 13, 2], [309, 11, 1], [342, 8, 1],
     [366, 7, 1], [387, 6, 1], [405, 6, 1], [423, 6, 1], [441, 13, 8],
     [753, 11, 2], [819, 10, 4], [899, 10, 4], [0, 0, 0], [0, 0, 0]].getD r []).getD c 0)

lemma foldl_pres {α β : Type} (P : α → Prop) (f : α → β → α) :
    ∀ (l : List β) (a : α), P a → (∀ x b, P x → P (f x b)) → P (l.foldl f a) := by
  intro l
  induction l with
  | nil => intro a ha _; exact ha
  | cons b tl ih =>
    intro a ha hstep
    exact ih (f a b) (hstep a b ha) hstep


lemma stateStep_ne_fail (ipt : ℕ → ℕ → ℕ) (lst : ℕ → ℕ) (rc : Bool) (cache : ℕ → ℚ)
    (t0 t1 aufac : ℚ) (n i : ℕ) (σ : SState) (e : JplError) :
    stateStep ipt lst rc cache t0 t1 aufac n i σ ≠ POut.fail e := by
  simp only [stateStep]
  repeat' split
  all_goals intro h
  all_goals exact POut.noConfusion h

lemma runLoop_not_fail (ipt : ℕ → ℕ → ℕ) (lst : ℕ → ℕ) (rc : Bool) (cache : ℕ → ℚ)
    (t0 t1 aufac : ℚ) (σ0 : SState) (e : JplError) :
    runLoop ipt lst rc cache t0 t1 aufac σ0 ≠ POut.fail e := by
  unfold runLoop
  have main : ∀ x : POut SState, (∀ e2 : JplError, x ≠ POut.fail e2) →
      ∀ e2 : JplError,
        [1, 2, 4, 8].foldl
          (fun acc n =>
            (List.range 15).foldl
              (fun a i => loopStep ipt lst rc cache t0 t1 aufac n i a) acc)
          x ≠ POut.fail e2 := by
    intro x hx
    apply foldl_pres (fun y => ∀ e2 : JplError, y ≠ POut.fail e2) _ _ x hx
    intro y n hy
    apply foldl_pres (fun z => ∀ e2 : JplError, z ≠ POut.fail e2) _ _ y hy
    intro z i hz e2
    unfold loopStep
    match z, hz with
    | POut.panic, _ => intro h; cases h
    | POut.fail e3, hz => exact absurd rfl (hz e3)
    | POut.ok σ, _ => exact stateStep_ne_fail ipt lst rc cache t0 t1 aufac n i σ e2
  exact main (POut.ok σ0) (fun _ h => by cases h) e

lemma State_shape (eph : Eph) (et : ℚ) (lst : ℕ → ℕ) (pv : ℕ → ℕ → ℚ)
    (nut : ℕ → ℚ) (bary : ℕ) :
    ((et < eph.ephemStart ∨ eph.ephemEnd < et) →
      State eph et lst pv nut bary = POut.fail JplError.outsideRange) ∧
    (¬(et < eph.ephemStart ∨ eph.ephemEnd < et) →
      State eph et lst pv nut bary = POut.panic ∨
        ∃ res, State eph et lst pv nut bary = POut.ok res) := by
  constructor
  · intro h
    simp only [State]
    rw [if_pos h]
  · intro h
    simp only [State]
    rw [if_neg h]
    split
    · exact Or.inl rfl
    · rename_i e heq
      exact absurd heq (runLoop_not_fail _ _ _ _ _ _ _ _ _)
    · exact Or.inr ⟨_, rfl⟩

/-- C5: `State` returns `OutOfRange` exactly for epochs strictly below
`ephemStart` or strictly above `ephemEnd`; the range check is inclusive at
both endpoints and the epoch is never clamped, and the error return precedes
every file operation and cache mutation (the `fail` outcome carries no
updated state and no operation log). -/
theorem claim_C5_state_out_of_range (eph : Eph) (et : ℚ) (lst : ℕ → ℕ)
    (pv : ℕ → ℕ → ℚ) (nut : ℕ → ℚ) (bary : ℕ) :
    isOutsideRangeB (State eph et lst pv nut bary) = true ↔
      (et < eph.ephemStart ∨ eph.ephemEnd < et) := by
  by_cases h : et < eph.ephemStart ∨ eph.ephemEnd < et
  · rw [(State_shape eph et lst pv nut bary).1 h]
    simp [isOutsideRangeB, h]
  · rcases (State_shape eph et lst pv nut bary).2 h with hp | ⟨res, hok⟩
    · rw [hp]; simp [isOutsideRangeB, h]
    · rw [hok]; simp [isOutsideRangeB, h]

/-- C4: when target equals center — for every integer code, valid or not —
`Pleph` immediately returns the all-zero 6-vector with an empty file
operation log and an unchanged handle; the short-circuit precedes index
validation, so no `InvalidBodyIndex` error is possible. -/
theorem claim_C4_target_eq_center (eph : Eph) (et : ℚ) (t : ℤ) (cv : ℕ) :
    Pleph eph et t t cv = POut.ok (List.replicate 6 0, eph, []) := by
  simp [Pleph]

lemma State_fail_only_outside (eph : Eph) (et : ℚ) (lst : ℕ → ℕ) (pv : ℕ → ℕ → ℚ)
    (nut : ℕ → ℚ) (bary : ℕ) (e : JplError)
    (h : State eph et lst pv nut bary = POut.fail e) : e = JplError.outsideRange := by
  by_cases hr : et < eph.ephemStart ∨ eph.ephemEnd < et
  · rw [(State_shape eph et lst pv nut bary).1 hr] at h
    cases h
    rfl
  · rcases (State_shape eph et lst pv nut bary).2 hr with hp | ⟨res, hok⟩
    · rw [hp] at h; cases h
    · rw [hok] at h; cases h

lemma State_ok_spec (eph : Eph) (et : ℚ) (lst : ℕ → ℕ) (pv : ℕ → ℕ → ℚ)
    (nut : ℕ → ℚ) (bary : ℕ) (e2 : Eph) (pv2 : ℕ → ℕ → ℚ) (nut2 : ℕ → ℚ)
    (lg : List (ℕ × ℕ))
    (h : State eph et lst pv nut bary = POut.ok (e2, pv2, nut2, lg)) :
    e2.ephemStart = eph.ephemStart ∧ e2.ephemEnd = eph.ephemEnd ∧
    e2.ephemStep = eph.ephemStep ∧ e2.recsize = eph.recsize ∧
    e2.ncoeff = eph.ncoeff ∧ e2.currCacheLoc = adjRecIdx eph et ∧
    lg = (if adjRecIdx eph et = eph.currCacheLoc then []
      else [((adjRecIdx eph et + 2) * eph.recsize % 2 ^ 32, eph.ncoeff)]) ∧
    e2.cache = (if adjRecIdx eph et = eph.currCacheLoc then eph.cache
      else fun j => if eph.swapBytes then eph.swapFn (eph.file (adjRecIdx eph et) j)
        else eph.file (adjRecIdx eph et) j) := by
  simp only [State] at h
  by_cases hr : et < eph.ephemStart ∨ eph.ephemEnd < et
  · rw [if_pos hr] at h
    cases h
  · rw [if_neg hr] at h
    split at h
    · cases h
    · cases h
    · rename_i σ heq
      rw [POut.ok.injEq, Prod.mk.injEq, Prod.mk.injEq, Prod.mk.injEq] at h
      obtain ⟨he, _, _, hlg⟩ := h
      subst he
      subst hlg
      refine ⟨rfl, rfl, rfl, rfl, rfl, rfl, ?_, ?_⟩
      · rw [ite_not]
      · rw [ite_not]

lemma blockLoc_congr (e2 eph : Eph) (hs : e2.ephemStart = eph.ephemStart)
    (hp : e2.ephemStep = eph.ephemStep) (x : ℚ) :
    blockLocOf e2 x = blockLocOf eph x := by
  unfold blockLocOf
  rw [hs, hp]

lemma adjRecIdx_congr (e2 eph : Eph) (hs : e2.ephemStart = eph.ephemStart)
    (hp : e2.ephemStep = eph.ephemStep) (x : ℚ) :
    adjRecIdx e2 x = adjRecIdx eph x := by
  unfold adjRecIdx rawFrac rawRecIdx
  rw [blockLoc_congr e2 eph hs hp]

/-- C2 (amended): across two successive `State` calls, the second call issues
a record read exactly when the *adjusted* record index (floor of
`(epoch-start)/step`, stepped back by one when the fraction is exactly zero
away from record 0) differs between the two epochs, and it issues at most one
read. -/
theorem claim_C2_record_reload (eph : Eph) (e1 e2 : ℚ) (l1 l2 : ℕ → ℕ)
    (p1 p2 : ℕ → ℕ → ℚ) (n1 n2 : ℕ → ℚ) (b1 b2 : ℕ)
    (h1 : isOkB (State eph e1 l1 p1 n1 b1) = true)
    (h2 : isOkB (State (stateEph eph (State eph e1 l1 p1 n1 b1)) e2 l2 p2 n2 b2) = true) :
    (stateReads (State (stateEph eph (State eph e1 l1 p1 n1 b1)) e2 l2 p2 n2 b2) = some [] ↔
      adjRecIdx eph e2 = adjRecIdx eph e1) ∧
    (stateReads (State (stateEph eph (State eph e1 l1 p1 n1 b1)) e2 l2 p2 n2 b2) = some [] ∨
      stateReads (State (stateEph eph (State eph e1 l1 p1 n1 b1)) e2 l2 p2 n2 b2) =
        some [((adjRecIdx eph e2 + 2) * eph.recsize % 2 ^ 32, eph.ncoeff)]) := by
  cases hS1 : State eph e1 l1 p1 n1 b1 with
  | panic => rw [hS1] at h1; simp [isOkB] at h1
  | fail e => rw [hS1] at h1; simp [isOkB] at h1
  | ok r1 =>
    obtain ⟨e1x, pv1x, nut1x, lg1⟩ := r1
    have spec1 := State_ok_spec eph e1 l1 p1 n1 b1 e1x pv1x nut1x lg1 hS1
    rw [hS1] at h2
    have hse : stateEph eph (POut.ok (e1x, pv1x, nut1x, lg1)) = e1x := rfl
    rw [hse] at h2 ⊢
    cases hS2 : State e1x e2 l2 p2 n2 b2 with
    | panic => rw [hS2] at h2; simp [isOkB] at h2
    | fail e => rw [hS2] at h2; simp [isOkB] at h2
    | ok r2 =>
      obtain ⟨e2x, pv2x, nut2x, lg2⟩ := r2
      have spec2 := State_ok_spec e1x e2 l2 p2 n2 b2 e2x pv2x nut2x lg2 hS2
      have hadj : adjRecIdx e1x e2 = adjRecIdx eph e2 :=
        adjRecIdx_congr e1x eph spec1.1 spec1.2.2.1 e2
      have hloc : e1x.currCacheLoc = adjRecIdx eph e1 := spec1.2.2.2.2.2.1
      have hlg2 := spec2.2.2.2.2.2.2.1
      rw [hadj, hloc, spec1.2.2.2.1, spec1.2.2.2.2.1] at hlg2
      subst hlg2
      by_cases hcase : adjRecIdx eph e2 = adjRecIdx eph e1
      · rw [if_pos hcase]
        simp [stateReads, hcase]
      · rw [if_neg hcase]
        simp [stateReads, hcase]

/-- C2 counterexample: with a fresh 10-day/1-step handle, a call at epoch 0.5
followed by a call at epoch 1.0 performs zero reads on the second call even
though `floor((epoch-start)/step)` changed from 0 to 1 — the exact-zero
fraction at a record boundary steps back one record, so the claim's reload
criterion (`floor` changes) is wrong there. -/
theorem claim_C2_counterexample :
    stateReads (State (stateEph ephA (State ephA (1/2) (fun _ => 0) zeroPv zeroFn 1)) 1
      (fun _ => 0) zeroPv zeroFn 1) = some [] ∧
    ⌊blockLocOf ephA 1⌋ ≠ ⌊blockLocOf ephA (1/2)⌋ := by
  with_unfolding_all decide

lemma blockLoc_nonneg (eph : Eph) (et : ℚ) (hstep : 0 < eph.ephemStep)
    (hle : eph.ephemStart ≤ et) : 0 ≤ blockLocOf eph et := by
  unfold blockLocOf
  exact div_nonneg (by linarith) hstep.le

lemma rawRecIdx_eq_floor (eph : Eph) (et : ℚ) (h : 0 ≤ blockLocOf eph et) :
    (rawRecIdx eph et : ℤ) = ⌊blockLocOf eph et⌋ := by
  unfold rawRecIdx ratTrunc
  rw [if_pos h]
  exact Int.toNat_of_nonneg (Int.floor_nonneg.mpr h)

/-- C7: for an in-range epoch, `State` computes the record index as the floor
of `(epoch-start)/step` and the fraction as its remainder; an exactly-zero
fraction away from record 0 becomes fraction 1 with the index decremented; on
an index change it performs exactly one seek-and-read of `nCoeffPerRecord`
doubles at byte offset `(recordIndex+2)*recordSizeBytes`, byte-swapping the
whole block exactly when the swap flag is set; with an unchanged index it
performs no file operation and keeps the resident cache. -/
theorem claim_C7_state_record_io (eph : Eph) (et : ℚ) (lst : ℕ → ℕ)
    (pv : ℕ → ℕ → ℚ) (nut : ℕ → ℚ) (bary : ℕ)
    (hstep : 0 < eph.ephemStep) (hin : ¬(et < eph.ephemStart ∨ eph.ephemEnd < et))
    (hfit : (adjRecIdx eph et + 2) * eph.recsize < 2 ^ 32)
    (hok : isOkB (State eph et lst pv nut bary) = true) :
    (rawRecIdx eph et : ℤ) = ⌊blockLocOf eph et⌋ ∧
    rawFrac eph et = blockLocOf eph et - (rawRecIdx eph et : ℚ) ∧
    (rawFrac eph et = 0 ∧ rawRecIdx eph et ≠ 0 →
      adjRecIdx eph et = rawRecIdx eph et - 1 ∧ adjFrac eph et = 1) ∧
    (¬(rawFrac eph et = 0 ∧ rawRecIdx eph et ≠ 0) →
      adjRecIdx eph et = rawRecIdx eph et ∧ adjFrac eph et = rawFrac eph et) ∧
    (adjRecIdx eph et = eph.currCacheLoc →
      stateReads (State eph et lst pv nut bary) = some [] ∧
      ∀ j, stateCacheAt (State eph et lst pv nut bary) j = some (eph.cache j)) ∧
    (adjRecIdx eph et ≠ eph.currCacheLoc →
      stateReads (State eph et lst pv nut bary) =
        some [((adjRecIdx eph et + 2) * eph.recsize, eph.ncoeff)] ∧
      ∀ j, stateCacheAt (State eph et lst pv nut bary) j =
        some (if eph.swapBytes then eph.swapFn (eph.file (adjRecIdx eph et) j)
          else eph.file (adjRecIdx eph et) j)) := by
  have hle : eph.ephemStart ≤ et := not_lt.mp (fun h => hin (Or.inl h))
  have hnn := blockLoc_nonneg eph et hstep hle
  refine ⟨rawRecIdx_eq_floor eph et hnn, rfl, ?_, ?_, ?_, ?_⟩
  · intro hc
    unfold adjRecIdx adjFrac
    rw [if_pos hc, if_pos hc]
    exact ⟨rfl, rfl⟩
  · intro hc
    unfold adjRecIdx adjFrac
    rw [if_neg hc, if_neg hc]
    exact ⟨rfl, rfl⟩
  · intro hcl
    cases hS : State eph et lst pv nut bary with
    | panic => rw [hS] at hok; simp [isOkB] at hok
    | fail e => rw [hS] at hok; simp [isOkB] at hok
    | ok r =>
      obtain ⟨e2, pv2, nut2, lg⟩ := r
      have spec := State_ok_spec eph et lst pv nut bary e2 pv2 nut2 lg hS
      have hlg := spec.2.2.2.2.2.2.1
      have hcache := spec.2.2.2.2.2.2.2
      rw [if_pos hcl] at hlg hcache
      constructor
      · simp only [stateReads]
        rw [hlg]
      · intro j
        simp only [stateCacheAt]
        rw [hcache]
  · intro hcl
    cases hS : State eph et lst pv nut bary with
    | panic => rw [hS] at hok; simp [isOkB] at hok
    | fail e => rw [hS] at hok; simp [isOkB] at hok
    | ok r =>
      obtain ⟨e2, pv2, nut2, lg⟩ := r
      have spec := State_ok_spec eph et lst pv nut bary e2 pv2 nut2 lg hS
      have hlg := spec.2.2.2.2.2.2.1
      have hcache := spec.2.2.2.2.2.2.2
      rw [if_neg hcl] at hlg hcache
      constructor
      · simp only [stateReads]
        rw [hlg, Nat.mod_eq_of_lt hfit]
      · intro j
        simp only [stateCacheAt]
        rw [hcache]

/-- C1 (amended): for a quantity target 14–17 (and a center different from
the target), `Pleph` returns `QuantityUnavailable` exactly when the matching
IPT row's *coefficient count* (column 1 — not the sub-interval count, column
2) is zero; when that count is positive it returns the `nut` slice filled by
`State` for the single requested quantity, bypassing the body subtraction. -/
theorem claim_C1_quantity_gate (eph : Eph) (et : ℚ) (ntarg ncent : ℤ) (cv : ℕ)
    (hq14 : 14 ≤ ntarg) (hq17 : ntarg ≤ 17) (hne : ntarg ≠ ncent) :
    (Pleph eph et ntarg ncent cv = POut.fail JplError.quantityNotInEphemeris ↔
      eph.ipt ((ntarg - 14).toNat + 11) 1 = 0) ∧
    (0 < eph.ipt ((ntarg - 14).toNat + 11) 1 →
      Pleph eph et ntarg ncent cv =
        plephQuantityResult (State eph et
          (fun k => if k = (ntarg - 14).toNat + 10 then (if cv ≠ 0 then 2 else 1) else 0)
          zeroPv zeroFn 0)) := by
  have hgate : (14 ≤ ntarg ∧ ntarg ≤ 17) := ⟨hq14, hq17⟩
  simp only [Pleph]
  rw [if_neg hne, if_pos hgate]
  by_cases hipt : 0 < eph.ipt ((ntarg - 14).toNat + 11) 1
  · rw [if_pos hipt]
    constructor
    · cases hS : State eph et
          (fun k => if k = (ntarg - 14).toNat + 10 then (if cv ≠ 0 then 2 else 1) else 0)
          zeroPv zeroFn 0 with
      | panic =>
        simp only []
        constructor
        · intro h; cases h
        · intro h; omega
      | fail e =>
        have he := State_fail_only_outside _ _ _ _ _ _ _ hS
        subst he
        simp only []
        constructor
        · intro h; cases h
        · intro h; omega
      | ok r =>
        obtain ⟨e2, pv2, nut2, lg⟩ := r
        simp only []
        constructor
        · intro h; cases h
        · intro h; omega
    · intro _
      cases hS : State eph et
          (fun k => if k = (ntarg - 14).toNat + 10 then (if cv ≠ 0 then 2 else 1) else 0)
          zeroPv zeroFn 0 with
      | panic => rfl
      | fail e => rfl
      | ok r =>
        obtain ⟨e2, pv2, nut2, lg⟩ := r
        rfl
  · rw [if_neg hipt]
    have h0 : eph.ipt ((ntarg - 14).toNat + 11) 1 = 0 := by omega
    refine ⟨by simp [h0], ?_⟩
    intro h
    omega

/-- C1 counterexample: an ephemeris whose nutations IPT row is `(1, 3, 0)` —
three coefficients per component but *zero* sub-intervals — makes
`Pleph(…, 14, 1, …)` return a zero-filled success, not `QuantityUnavailable`,
because the code gates on `ipt[11][1] > 0` (coefficient count), not on the
sub-interval count `ipt[11][2]` as the claim states. -/
theorem claim_C1_counterexample :
    ephC1.ipt 11 2 = 0 ∧
    plephRrd (Pleph ephC1 (1/2) 14 1 1) = some [0, 0, 0, 0, 0, 0] := by
  with_unfolding_all decide

theorem claim_C1_witness :
    0 < ephC1.ipt 11 1 ∧
    Pleph ephC1 (1/2) 14 1 0 =
      plephQuantityResult (State ephC1 (1/2)
        (fun k => if k = ((14 : ℤ) - 14).toNat + 10 then (if (0 : ℕ) ≠ 0 then 2 else 1) else 0)
        zeroPv zeroFn 0) := by
  constructor
  · with_unfolding_all decide
  · exact (claim_C1_quantity_gate ephC1 (1/2) 14 1 0 (by decide) (by decide)
      (by decide)).2 (by with_unfolding_all decide)

/-- An (absurd but openable) IPT table whose row 0 makes the `uint32`
kernel-size accumulation wrap: `2*65536*65536*3 ≡ 0 (mod 2^32)`. -/
def iptOvf : ℕ → ℕ → ℕ := fun r c => if r = 0 ∧ (c = 1 ∨ c = 2) then 65536 else 0

lemma mul32_mod_left (a b : ℕ) : a % 2 ^ 32 * b % 2 ^ 32 = a * b % 2 ^ 32 := by
  conv_lhs => rw [Nat.mul_mod]
  conv_rhs => rw [Nat.mul_mod]
  rw [Nat.mod_mod_of_dvd _ dvd_rfl]

lemma mul32_chain (a b c : ℕ) :
    mul32 (mul32 (mul32 2 a) b) c = 2 * a * b * c % 2 ^ 32 := by
  unfold mul32
  rw [mul32_mod_left (2 * a) b, mul32_mod_left (2 * a * b) c]

lemma foldl_wrap (h : ℕ → ℕ) :
    ∀ (l : List ℕ) (a : ℕ),
      l.foldl (fun ks i => (ks + h i % 2 ^ 32) % 2 ^ 32) (a % 2 ^ 32) =
        (a + (l.map h).sum) % 2 ^ 32 := by
  intro l
  induction l with
  | nil => intro a; simp
  | cons b tl ih =>
    intro a
    have hstep : (a % 2 ^ 32 + h b % 2 ^ 32) % 2 ^ 32 = (a + h b) % 2 ^ 32 := by
      omega
    simp only [List.foldl_cons, hstep]
    rw [ih (a + h b)]
    simp [Nat.add_assoc]

lemma kernelSizeCalc_mod (ipt : ℕ → ℕ → ℕ) :
    kernelSizeCalc ipt =
      (4 + ((List.range 15).map
        (fun i => 2 * ipt i 1 * ipt i 2 * quantityDimension i)).sum) % 2 ^ 32 := by
  unfold kernelSizeCalc
  simp only [add32, mul32_chain]
  have h4 : (4 : ℕ) = 4 % 2 ^ 32 := by norm_num
  conv_lhs => rw [h4]
  exact foldl_wrap _ (List.range 15) 4

/-- C10 (amended): the kernel geometry of `initEphemeris` in `uint32`
arithmetic: `kernelSize` is `4 + Σ 2·order_i·nSubIntervals_i·dim_i` over the
15 IPT rows — dimension 3 except nutations (row 11: 2) and TT-TDB (row 14: 1)
— reduced modulo `2^32`; `recordSizeBytes = kernelSize·4 (mod 2^32)` and
`nCoeffPerRecord = kernelSize/2` with `kernelSize` always even, so the
division is exact; the unreduced equalities hold whenever the products fit in
32 bits, as they do for every real ephemeris. -/
theorem claim_C10_kernel_geometry (ipt : ℕ → ℕ → ℕ) :
    kernelSizeCalc ipt =
      (4 + ((List.range 15).map (fun i => 2 * ipt i 1 * ipt i 2 *
        (if i = 11 then 2 else if i = 14 then 1 else 3))).sum) % 2 ^ 32 ∧
    2 ∣ kernelSizeCalc ipt ∧
    recsizeCalc ipt = kernelSizeCalc ipt * 4 % 2 ^ 32 ∧
    ncoeffCalc ipt = kernelSizeCalc ipt / 2 ∧
    (4 + ((List.range 15).map (fun i => 2 * ipt i 1 * ipt i 2 *
        (if i = 11 then 2 else if i = 14 then 1 else 3))).sum < 2 ^ 32 →
      kernelSizeCalc ipt =
        4 + ((List.range 15).map (fun i => 2 * ipt i 1 * ipt i 2 *
          (if i = 11 then 2 else if i = 14 then 1 else 3))).sum) ∧
    (kernelSizeCalc ipt * 4 < 2 ^ 32 →
      recsizeCalc ipt = kernelSizeCalc ipt * 4) := by
  have hdim : ∀ i : ℕ, quantityDimension i =
      (if i = 11 then 2 else if i = 14 then 1 else 3) := fun i => rfl
  have hmain : kernelSizeCalc ipt =
      (4 + ((List.range 15).map (fun i => 2 * ipt i 1 * ipt i 2 *
        (if i = 11 then 2 else if i = 14 then 1 else 3))).sum) % 2 ^ 32 := by
    rw [kernelSizeCalc_mod ipt]
    simp only [hdim]
  have heven : 2 ∣ 4 + ((List.range 15).map (fun i => 2 * ipt i 1 * ipt i 2 *
      (if i = 11 then 2 else if i = 14 then 1 else 3))).sum := by
    apply Nat.dvd_add ⟨2, rfl⟩
    apply List.dvd_sum
    intro x hx
    rw [List.mem_map] at hx
    obtain ⟨i, _, hxe⟩ := hx
    subst hxe
    exact ⟨ipt i 1 * ipt i 2 * (if i = 11 then 2 else if i = 14 then 1 else 3), by ring⟩
  refine ⟨hmain, ?_, rfl, rfl, ?_, ?_⟩
  · rw [hmain]
    omega
  · intro hlt
    rw [hmain, Nat.mod_eq_of_lt hlt]
  · intro hlt
    unfold recsizeCalc mul32
    rw [Nat.mod_eq_of_lt hlt]

/-- C10 counterexample: with IPT row 0 equal to `(0, 65536, 65536)` the open
succeeds but the `uint32` accumulation wraps: `kernelSize` comes out as 4,
not the exact integer value `4 + 2·65536·65536·3 = 25769803780`, so the
claimed exact-arithmetic equality fails on the code. -/
theorem claim_C10_counterexample :
    kernelSizeCalc iptOvf = 4 ∧
    4 + ((List.range 15).map (fun i => 2 * iptOvf i 1 * iptOvf i 2 *
      (if i = 11 then 2 else if i = 14 then 1 else 3))).sum = 25769803780 ∧
    kernelSizeCalc iptOvf ≠
      4 + ((List.range 15).map (fun i => 2 * iptOvf i 1 * iptOvf i 2 *
        (if i = 11 then 2 else if i = 14 then 1 else 3))).sum := by
  refine ⟨by decide, by decide, by decide⟩

theorem claim_C10_witness :
    kernelSizeCalc iptDE405 =
      4 + ((List.range 15).map (fun i => 2 * iptDE405 i 1 * iptDE405 i 2 *
        (if i = 11 then 2 else if i = 14 then 1 else 3))).sum ∧
    kernelSizeCalc iptDE405 = 2036 ∧
    recsizeCalc iptDE405 = 8144 ∧
    ncoeffCalc iptDE405 = 1018 := by
  refine ⟨(claim_C10_kernel_geometry iptDE405).2.2.2.2.1 (by decide),
    by decide, by decide, by decide⟩

lemma interpTc_mem (t0 : ℚ) (na : ℕ) (h0 : 0 ≤ t0) (h1 : t0 ≤ 1) :
    -1 ≤ interpTc t0 na ∧ interpTc t0 na ≤ 1 := by
  have htemp : 0 ≤ (na : ℚ) * t0 := mul_nonneg (Nat.cast_nonneg na) h0
  simp only [interpTc, ratTrunc]
  rw [if_pos htemp]
  split
  · norm_num
  · have hfr : (na : ℚ) * t0 - (⌊(na : ℚ) * t0⌋ : ℚ) = Int.fract ((na : ℚ) * t0) :=
      Int.self_sub_floor ((na : ℚ) * t0)
    rw [hfr]
    have hf0 := Int.fract_nonneg ((na : ℚ) * t0)
    have hf1 := Int.fract_lt_one ((na : ℚ) * t0)
    constructor <;> linarith

/-- C6 (amended): `interp` aborts (panics) exactly when the coefficient count
reaches the fixed bound (`ncf ≥ 18`, i.e. the maximum supported order is 17,
not 18 as the claim says) or when the adjusted normalized time falls outside
`[-1,1]`; for every call with fraction in `[0,1]` and `ncf < 18` neither
abort branch is reachable. -/
theorem claim_C6_interp_abort (s : IInfo) (coef : ℕ → ℚ) (t0 t1 : ℚ)
    (ncf ncm na vf : ℕ) :
    ((interp s coef t0 t1 ncf ncm na vf).isSome = false ↔
      (18 ≤ ncf ∨ interpTc t0 na < -1 ∨ 1 < interpTc t0 na)) ∧
    (0 ≤ t0 → t0 ≤ 1 → ncf < 18 →
      (interp s coef t0 t1 ncf ncm na vf).isSome = true) := by
  have habort : (interp s coef t0 t1 ncf ncm na vf).isSome = false ↔
      (18 ≤ ncf ∨ interpTc t0 na < -1 ∨ 1 < interpTc t0 na) := by
    simp only [interp]
    by_cases hncf : 18 ≤ ncf
    · rw [if_pos hncf]
      simp [hncf]
    · rw [if_neg hncf]
      by_cases htc : interpTc t0 na < -1 ∨ 1 < interpTc t0 na
      · rw [if_pos htc]
        simp [hncf, htc]
      · rw [if_neg htc]
        split
        · simp [hncf, htc]
        · split
          · simp [hncf, htc]
          · simp [hncf, htc]
  refine ⟨habort, ?_⟩
  intro h0 h1 hncf
  have hmem := interpTc_mem t0 na h0 h1
  rw [← Bool.not_eq_false, habort]
  push_neg
  exact ⟨by omega, hmem.1, hmem.2⟩

/-- C6 counterexample: at coefficient count exactly 18 — which does *not*
exceed the claimed bound of 18 — `interp` aborts even though the fraction 1/2
is perfectly valid, so "maximum supported order is 18" is off by one: the
check is `ncf >= maxCheby`. -/
theorem claim_C6_counterexample :
    (0 : ℚ) ≤ 1/2 ∧ (1/2 : ℚ) ≤ 1 ∧ ¬(18 < 18) ∧
    (interp initIInfo zeroFn (1/2) 1 18 3 1 1).isSome = false := by
  refine ⟨by norm_num, by norm_num, by omega, by with_unfolding_all decide⟩

theorem claim_C6_witness :
    (interp initIInfo zeroFn (1/2) 1 5 3 1 2).isSome = true :=
  (claim_C6_interp_abort initIInfo zeroFn (1/2) 1 5 3 1 2).2
    (by norm_num) (by norm_num) (by omega)

/-- `posnCoeff` entry `k` of the cache after an `interp` call (0 on abort). -/
def interpInfoPosn (r : Option (List ℚ × IInfo)) (k : ℕ) : ℚ :=
  match r with
  | some (_, s) => s.posn k
  | none => 0

/-- `velCoeff` entry `k` of the cache after an `interp` call (0 on abort). -/
def interpInfoVel (r : Option (List ℚ × IInfo)) (k : ℕ) : ℚ :=
  match r with
  | some (_, s) => s.vel k
  | none => 0

/-- C8: the interpolator's recurrences produce the exact polynomial values
`T0 = 1`, `T1 = tc`, `T2 = 2tc²−1` and `T'2 = 4tc` in its cached arrays for
any reachable `tc ∈ [-1,1]` (here parametrized by the fraction), and a
single-component, one-sub-interval call on the coefficient block `[1,0,0]`
at fraction `1/2` (so `tc = 0`) returns position exactly `1`. -/
theorem claim_C8_chebyshev_identities (coef : ℕ → ℚ) (t0 t1 : ℚ) (ncm na : ℕ)
    (h0 : 0 ≤ t0) (h1 : t0 ≤ 1) :
    interpInfoPosn (interp initIInfo coef t0 t1 3 ncm na 2) 0 = 1 ∧
    interpInfoPosn (interp initIInfo coef t0 t1 3 ncm na 2) 1 = interpTc t0 na ∧
    interpInfoPosn (interp initIInfo coef t0 t1 3 ncm na 2) 2 =
      2 * interpTc t0 na ^ 2 - 1 ∧
    interpInfoVel (interp initIInfo coef t0 t1 3 ncm na 2) 2 = 4 * interpTc t0 na ∧
    interpOut (interp initIInfo (fun j => if j = 0 then 1 else 0) (1/2) 1 3 1 1 1) =
      some [1] := by
  have hmem := interpTc_mem t0 na h0 h1
  have hnot : ¬(interpTc t0 na < -1 ∨ 1 < interpTc t0 na) := by
    rintro (h | h) <;> linarith [hmem.1, hmem.2]
  have hne2 : interpTc t0 na ≠ initIInfo.posn 1 := by
    have hv : initIInfo.posn 1 = -2 := rfl
    rw [hv]
    intro h
    rw [h] at hmem
    linarith [hmem.1]
  have hsplit : resetInfo initIInfo (interpTc t0 na) =
      { initIInfo with
        nPosn := 2
        nVel := 2
        posn := updf initIInfo.posn 1 (interpTc t0 na)
        twot := interpTc t0 na + interpTc t0 na } := by
    unfold resetInfo
    rw [if_pos hne2]
  refine ⟨?_, ?_, ?_, ?_, by with_unfolding_all decide⟩ <;>
  · simp only [interp, if_neg (show ¬(18 ≤ 3) by norm_num), if_neg hnot,
      if_neg (show ¬(2 ≤ 1) by norm_num), if_neg (show ¬(2 = 3) by norm_num),
      interpInfoPosn, interpInfoVel, hsplit]
    norm_num [posnPhase, velPhase, posnIter, velIter, updf, initIInfo]
    try ring

theorem claim_C8_witness :
    interpInfoPosn (interp initIInfo zeroFn (1/2) 1 3 1 1 2) 2 =
      2 * interpTc (1/2) 1 ^ 2 - 1 ∧
    interpInfoVel (interp initIInfo zeroFn (1/2) 1 3 1 1 2) 2 = 4 * interpTc (1/2) 1 :=
  ⟨(claim_C8_chebyshev_identities zeroFn (1/2) 1 1 1 (by norm_num) (by norm_num)).2.2.1,
   (claim_C8_chebyshev_identities zeroFn (1/2) 1 1 1 (by norm_num) (by norm_num)).2.2.2.1⟩

theorem claim_C7_witness :
    stateReads (State ephA (1/2) (fun _ => 0) zeroPv zeroFn 1) =
      some [((adjRecIdx ephA (1/2) + 2) * ephA.recsize, ephA.ncoeff)] :=
  ((claim_C7_state_record_io ephA (1/2) (fun _ => 0) zeroPv zeroFn 1
      (by norm_num [ephA]) (by norm_num [ephA])
      (by with_unfolding_all decide) (by with_unfolding_all decide)).2.2.2.2.2
    (by with_unfolding_all decide)).1

theorem claim_C2_witness :
    stateReads (State (stateEph ephA (State ephA (1/2) (fun _ => 0) zeroPv zeroFn 1))
        (3/4) (fun _ => 0) zeroPv zeroFn 1) = some [] :=
  (claim_C2_record_reload ephA (1/2) (3/4) (fun _ => 0) (fun _ => 0) zeroPv zeroPv
      zeroFn zeroFn 1 1 (by with_unfolding_all decide)
      (by with_unfolding_all decide)).1.mpr (by with_unfolding_all decide)

lemma updf_same (f : ℕ → ℚ) (k : ℕ) (v : ℚ) : updf f k v k = v := by
  simp [updf]

lemma updf_other (f : ℕ → ℚ) (k : ℕ) (v : ℚ) (j : ℕ) (h : j ≠ k) :
    updf f k v j = f j := by
  simp [updf, h]

lemma posnIter_untouched (tw : ℚ) (g : ℕ → ℚ) :
    ∀ k j, (j < 2 ∨ k + 2 ≤ j) → posnIter tw g k j = g j := by
  intro k
  induction k with
  | zero => intro j _; rfl
  | succ k ih =>
    intro j hj
    have hne : j ≠ k + 2 := by omega
    rw [posnIter, updf_other _ _ _ _ hne]
    exact ih j (by omega)

lemma posnIter_eq (tc : ℚ) (g : ℕ → ℚ) (hg0 : g 0 = 1) (hg1 : g 1 = tc) :
    ∀ k j, j < k + 2 → posnIter (tc + tc) g k j = chebT tc j := by
  intro k
  induction k with
  | zero =>
    intro j hj
    match j, hj with
    | 0, _ => exact hg0
    | 1, _ => exact hg1
  | succ k ih =>
    intro j hj
    rw [posnIter]
    by_cases hje : j = k + 2
    · subst hje
      rw [updf_same, ih (k + 1) (by omega), ih k (by omega)]
      rfl
    · rw [updf_other _ _ _ _ hje]
      exact ih j (by omega)

lemma velIter_untouched (tw : ℚ) (p g : ℕ → ℚ) :
    ∀ k j, (j < 2 ∨ k + 2 ≤ j) → velIter tw p g k j = g j := by
  intro k
  induction k with
  | zero => intro j _; rfl
  | succ k ih =>
    intro j hj
    have hne : j ≠ k + 2 := by omega
    rw [velIter, updf_other _ _ _ _ hne]
    exact ih j (by omega)

lemma velIter_eq (tc : ℚ) (p g : ℕ → ℚ) (hg0 : g 0 = 0) (hg1 : g 1 = 1) :
    ∀ k, (∀ j, j < k + 2 → p j = chebT tc j) →
      ∀ j, j < k + 2 → velIter (tc + tc) p g k j = chebU tc j := by
  intro k
  induction k with
  | zero =>
    intro _ j hj
    match j, hj with
    | 0, _ => exact hg0
    | 1, _ => exact hg1
  | succ k ih =>
    intro hp j hj
    rw [velIter]
    by_cases hje : j = k + 2
    · subst hje
      rw [updf_same, ih (fun j hj => hp j (by omega)) (k + 1) (by omega),
        ih (fun j hj => hp j (by omega)) k (by omega), hp (k + 1) (by omega)]
      rfl
    · rw [updf_other _ _ _ _ hje]
      exact ih (fun j hj => hp j (by omega)) j (by omega)

lemma accIter_eq (tc : ℚ) (v : ℕ → ℚ) :
    ∀ k, (∀ j, j < k + 2 → v j = chebU tc j) →
      ∀ j, j < k + 2 → accIter (tc + tc) v zeroFn k j = chebA tc j := by
  intro k
  induction k with
  | zero =>
    intro _ j hj
    match j, hj with
    | 0, _ => rfl
    | 1, _ => rfl
  | succ k ih =>
    intro hv j hj
    rw [accIter]
    by_cases hje : j = k + 2
    · subst hje
      rw [updf_same, ih (fun j hj => hv j (by omega)) (k + 1) (by omega),
        ih (fun j hj => hv j (by omega)) k (by omega), hv (k + 1) (by omega)]
      rfl
    · rw [updf_other _ _ _ _ hje]
      exact ih (fun j hj => hv j (by omega)) j (by omega)

lemma dotRange_congr (f f2 g : ℕ → ℚ) :
    ∀ (n a : ℕ), (∀ j, a ≤ j → j < a + n → f j = f2 j) →
      dotRange f g a n = dotRange f2 g a n := by
  have aux : ∀ (n a : ℕ) (acc : ℚ), (∀ j, a ≤ j → j < a + n → f j = f2 j) →
      (List.range' a n).foldl (fun acc j => acc + f j * g j) acc =
        (List.range' a n).foldl (fun acc j => acc + f2 j * g j) acc := by
    intro n
    induction n with
    | zero => intro a acc _; rfl
    | succ n ih =>
      intro a acc h
      simp only [List.range', List.foldl_cons]
      rw [h a le_rfl (by omega)]
      exact ih (a + 1) _ (fun j h1 h2 => h j (by omega) (by omega))
  intro n a h
  exact aux n a 0 h

lemma resetInfo_spec (s : IInfo) (tc : ℚ) (hInv : IInfoInv s) (hm1 : -1 ≤ tc) :
    (resetInfo s tc).posn 0 = 1 ∧ (resetInfo s tc).posn 1 = tc ∧
    (resetInfo s tc).twot = tc + tc ∧ 2 ≤ (resetInfo s tc).nPosn ∧
    2 ≤ (resetInfo s tc).nVel ∧
    (∀ i, i < (resetInfo s tc).nPosn → (resetInfo s tc).posn i = chebT tc i) ∧
    (resetInfo s tc).vel 0 = 0 ∧ (resetInfo s tc).vel 1 = 1 ∧
    (∀ i, i < (resetInfo s tc).nVel → (resetInfo s tc).vel i = chebU tc i) := by
  obtain ⟨hp0, hv0, hv1, hlow, hmain⟩ := hInv
  unfold resetInfo
  by_cases hne : tc ≠ s.posn 1
  · rw [if_pos hne]
    dsimp only
    refine ⟨?_, updf_same _ _ _, rfl, le_refl 2, le_refl 2, ?_, hv0, hv1, ?_⟩
    · rw [updf_other _ _ _ _ (by omega)]
      exact hp0
    · intro i hi
      match i, hi with
      | 0, _ => rw [updf_other _ _ _ _ (by omega)]; exact hp0
      | 1, _ => exact updf_same _ _ _
    · intro i hi
      match i, hi with
      | 0, _ => exact hv0
      | 1, _ => exact hv1
  · rw [if_neg hne]
    push_neg at hne
    have hn2 : 2 ≤ s.nPosn := by
      by_contra hlt
      have := hlow (by omega)
      rw [this] at hne
      rw [hne] at hm1
      norm_num at hm1
    obtain ⟨htw, hnv, hP, hV⟩ := hmain hn2
    subst hne
    exact ⟨hp0, rfl, htw, hn2, hnv, hP, hv0, hv1, hV⟩

lemma posnPhase_spec (s : IInfo) (tc : ℚ) (ncf : ℕ)
    (h0 : s.posn 0 = 1) (h1 : s.posn 1 = tc) (htw : s.twot = tc + tc)
    (hn : 2 ≤ s.nPosn) (hP : ∀ i, i < s.nPosn → s.posn i = chebT tc i) :
    (posnPhase s ncf).posn 0 = 1 ∧ (posnPhase s ncf).posn 1 = tc ∧
    (posnPhase s ncf).twot = tc + tc ∧ 2 ≤ (posnPhase s ncf).nPosn ∧
    ncf ≤ (posnPhase s ncf).nPosn ∧
    (∀ i, i < (posnPhase s ncf).nPosn → (posnPhase s ncf).posn i = chebT tc i) ∧
    (posnPhase s ncf).vel = s.vel ∧ (posnPhase s ncf).nVel = s.nVel := by
  unfold posnPhase
  by_cases h : s.nPosn < ncf
  · rw [if_pos h]
    dsimp only
    rw [htw]
    have hncf2 : 2 ≤ ncf := by omega
    refine ⟨?_, ?_, rfl, by omega, by omega, ?_, rfl, rfl⟩
    · rw [posnIter_untouched _ _ _ _ (Or.inl (by omega))]
      exact h0
    · rw [posnIter_untouched _ _ _ _ (Or.inl (by omega))]
      exact h1
    · intro i hi
      exact posnIter_eq tc s.posn h0 h1 (ncf - 2) i (by omega)
  · rw [if_neg h]
    exact ⟨h0, h1, htw, hn, by omega, hP, rfl, rfl⟩

lemma velPhase_spec (s : IInfo) (tc : ℚ) (ncf : ℕ)
    (hv0 : s.vel 0 = 0) (hv1 : s.vel 1 = 1) (htw : s.twot = tc + tc)
    (hnv : 2 ≤ s.nVel) (hV : ∀ i, i < s.nVel → s.vel i = chebU tc i)
    (hPncf : ∀ i, i < ncf → s.posn i = chebT tc i) :
    (velPhase s ncf).vel 0 = 0 ∧ (velPhase s ncf).vel 1 = 1 ∧
    2 ≤ (velPhase s ncf).nVel ∧ ncf ≤ (velPhase s ncf).nVel ∧
    (∀ i, i < (velPhase s ncf).nVel → (velPhase s ncf).vel i = chebU tc i) ∧
    (velPhase s ncf).posn = s.posn ∧ (velPhase s ncf).nPosn = s.nPosn ∧
    (velPhase s ncf).twot = s.twot := by
  unfold velPhase
  by_cases h : s.nVel < ncf
  · rw [if_pos h]
    dsimp only
    rw [htw]
    have hncf2 : 2 ≤ ncf := by omega
    refine ⟨?_, ?_, by omega, by omega, ?_, rfl, rfl, rfl⟩
    · rw [velIter_untouched _ _ _ _ _ (Or.inl (by omega))]
      exact hv0
    · rw [velIter_untouched _ _ _ _ _ (Or.inl (by omega))]
      exact hv1
    · intro i hi
      exact velIter_eq tc s.posn s.vel hv0 hv1 (ncf - 2)
        (fun j hj => hPncf j (by omega)) i (by omega)
  · rw [if_neg h]
    exact ⟨hv0, hv1, hnv, by omega, hV, rfl, rfl, rfl⟩

/-- C9: the recurrence cache of `interp` is observationally transparent —
under the cache invariant (which the freshly initialized cache satisfies,
its sentinel `-2` lying outside `[-1,1]`), every call writes exactly the
values a stateless recomputation of the Chebyshev recurrences from scratch
would, and the invariant is preserved, so this holds along every call
sequence. -/
theorem claim_C9_interp_cache_transparent (s : IInfo) (coef : ℕ → ℚ) (t0 t1 : ℚ)
    (ncf ncm na vf : ℕ) (hInv : IInfoInv s) :
    interpOut (interp s coef t0 t1 ncf ncm na vf) =
      interpStateless coef t0 t1 ncf ncm na vf ∧
    IInfoInv (interpNext s (interp s coef t0 t1 ncf ncm na vf)) ∧
    IInfoInv initIInfo ∧ initIInfo.posn 1 = -2 := by
  have hInit : IInfoInv initIInfo := by
    refine ⟨rfl, rfl, rfl, fun _ => rfl, fun h => absurd h (by simp [initIInfo])⟩
  by_cases hncf : 18 ≤ ncf
  · refine ⟨?_, ?_, hInit, rfl⟩
    · simp [interp, interpStateless, if_pos hncf, interpOut]
    · simp only [interp, if_pos hncf, interpNext]
      exact hInv
  · by_cases htc : interpTc t0 na < -1 ∨ 1 < interpTc t0 na
    · refine ⟨?_, ?_, hInit, rfl⟩
      · simp [interp, interpStateless, if_neg hncf, if_pos htc, interpOut]
      · simp only [interp, if_neg hncf, if_pos htc, interpNext]
        exact hInv
    · have hm1 : -1 ≤ interpTc t0 na := by
        push_neg at htc
        exact htc.1
      obtain ⟨r0, r1, rtw, rn2, rv2, rP, rv0, rv1, rV⟩ :=
        resetInfo_spec s (interpTc t0 na) hInv hm1
      obtain ⟨p0, p1, ptw, pn2, pncf, pP, pvel, pnV⟩ :=
        posnPhase_spec (resetInfo s (interpTc t0 na)) (interpTc t0 na) ncf r0 r1 rtw rn2 rP
      have s1v0 : (posnPhase (resetInfo s (interpTc t0 na)) ncf).vel 0 = 0 := by
        rw [pvel]; exact rv0
      have s1v1 : (posnPhase (resetInfo s (interpTc t0 na)) ncf).vel 1 = 1 := by
        rw [pvel]; exact rv1
      have s1nv : 2 ≤ (posnPhase (resetInfo s (interpTc t0 na)) ncf).nVel := by
        rw [pnV]; exact rv2
      have s1V : ∀ i, i < (posnPhase (resetInfo s (interpTc t0 na)) ncf).nVel →
          (posnPhase (resetInfo s (interpTc t0 na)) ncf).vel i =
            chebU (interpTc t0 na) i := by
        intro i hi
        rw [pvel]
        exact rV i (by rw [pnV] at hi; exact hi)
      have hPncf : ∀ i, i < ncf →
          (posnPhase (resetInfo s (interpTc t0 na)) ncf).posn i =
            chebT (interpTc t0 na) i := by
        intro i hi
        exact pP i (by omega)
      obtain ⟨w0, w1, wn2, wncf, wV, wposn, wnP, wtw⟩ :=
        velPhase_spec (posnPhase (resetInfo s (interpTc t0 na)) ncf)
          (interpTc t0 na) ncf s1v0 s1v1 ptw s1nv s1V hPncf
      have hInv1 : IInfoInv (posnPhase (resetInfo s (interpTc t0 na)) ncf) := by
        refine ⟨p0, s1v0, s1v1, fun h => absurd h (by omega), fun _ => ?_⟩
        rw [p1, ptw]
        refine ⟨rfl, s1nv, ?_, ?_⟩
        · intro i hi
          exact pP i hi
        · intro i hi
          exact s1V i hi
      have hInv2 : IInfoInv (velPhase (posnPhase (resetInfo s (interpTc t0 na)) ncf) ncf) := by
        have hw1 : (velPhase (posnPhase (resetInfo s (interpTc t0 na)) ncf) ncf).posn 1 =
            interpTc t0 na := by
          rw [wposn]; exact p1
        refine ⟨by rw [wposn]; exact p0, w0, w1, fun h => absurd h (by omega), fun _ => ?_⟩
        rw [hw1, wtw, ptw]
        refine ⟨rfl, by omega, ?_, ?_⟩
        · intro i hi
          rw [wposn]
          exact pP i (by rw [← wnP]; exact hi)
        · intro i hi
          exact wV i hi
      have hposEq : ((List.range ncm).map fun i =>
          dotRange (posnPhase (resetInfo s (interpTc t0 na)) ncf).posn
            (fun j => coef (ncf * (i + interpSubIdx t0 na * ncm) + j)) 0 ncf) =
          ((List.range ncm).map fun i =>
          dotRange (chebT (interpTc t0 na))
            (fun j => coef (ncf * (i + interpSubIdx t0 na * ncm) + j)) 0 ncf) := by
        apply List.map_congr_left
        intro i _
        exact dotRange_congr _ _ _ ncf 0 (fun j _ hj => pP j (by omega))
      have hvelEq : ((List.range ncm).map fun i =>
          dotRange (velPhase (posnPhase (resetInfo s (interpTc t0 na)) ncf) ncf).vel
            (fun j => coef (ncf * (i + interpSubIdx t0 na * ncm) + j)) 1 (ncf - 1) *
            (((na : ℚ) + (na : ℚ)) / t1)) =
          ((List.range ncm).map fun i =>
          dotRange (chebU (interpTc t0 na))
            (fun j => coef (ncf * (i + interpSubIdx t0 na * ncm) + j)) 1 (ncf - 1) *
            (((na : ℚ) + (na : ℚ)) / t1)) := by
        apply List.map_congr_left
        intro i _
        rw [dotRange_congr _ _ _ (ncf - 1) 1 (fun j hj1 hj2 => wV j (by omega))]
      have s2tw : (velPhase (posnPhase (resetInfo s (interpTc t0 na)) ncf) ncf).twot =
          interpTc t0 na + interpTc t0 na := by
        rw [wtw, ptw]
      have haccEq : ((List.range ncm).map fun i =>
          dotRange (accIter (velPhase (posnPhase (resetInfo s (interpTc t0 na)) ncf) ncf).twot
              (velPhase (posnPhase (resetInfo s (interpTc t0 na)) ncf) ncf).vel zeroFn (ncf - 2))
            (fun j => coef (ncf * (i + interpSubIdx t0 na * ncm) + j)) 2 (ncf - 2) *
            (((na : ℚ) + (na : ℚ)) / t1) * (((na : ℚ) + (na : ℚ)) / t1)) =
          ((List.range ncm).map fun i =>
          dotRange (chebA (interpTc t0 na))
            (fun j => coef (ncf * (i + interpSubIdx t0 na * ncm) + j)) 2 (ncf - 2) *
            (((na : ℚ) + (na : ℚ)) / t1) * (((na : ℚ) + (na : ℚ)) / t1)) := by
        apply List.map_congr_left
        intro i _
        rw [s2tw]
        rw [dotRange_congr _ _ _ (ncf - 2) 2 (fun j hj1 hj2 =>
          accIter_eq (interpTc t0 na)
            (velPhase (posnPhase (resetInfo s (interpTc t0 na)) ncf) ncf).vel (ncf - 2)
            (fun m hm => wV m (by omega)) j (by omega))]
      by_cases hvf1 : vf ≤ 1
      · refine ⟨?_, ?_, hInit, rfl⟩
        · simp only [interp, interpStateless, if_neg hncf, if_neg htc, if_pos hvf1,
            interpOut, Option.map]
          rw [hposEq]
        · simp only [interp, if_neg hncf, if_neg htc, if_pos hvf1, interpNext]
          exact hInv1
      · by_cases hvf3 : vf = 3
        · refine ⟨?_, ?_, hInit, rfl⟩
          · simp only [interp, interpStateless, if_neg hncf, if_neg htc, if_neg hvf1,
              if_pos hvf3, interpOut, Option.map]
            rw [hposEq, hvelEq, haccEq]
          · simp only [interp, if_neg hncf, if_neg htc, if_neg hvf1, if_pos hvf3, interpNext]
            exact hInv2
        · refine ⟨?_, ?_, hInit, rfl⟩
          · simp only [interp, interpStateless, if_neg hncf, if_neg htc, if_neg hvf1,
              if_neg hvf3, interpOut, Option.map]
            rw [hposEq, hvelEq]
          · simp only [interp, if_neg hncf, if_neg htc, if_neg hvf1, if_neg hvf3, interpNext]
            exact hInv2

theorem claim_C9_witness :
    interpOut (interp initIInfo (fun _ => 1) (1/2) 1 3 2 1 3) =
      interpStateless (fun _ => 1) (1/2) 1 3 2 1 3 :=
  (claim_C9_interp_cache_transparent initIInfo (fun _ => 1) (1/2) 1 3 2 1 3
    ⟨rfl, rfl, rfl, fun _ => rfl, fun h => absurd h (by simp [initIInfo])⟩).1

lemma listSet_apply (l : ℕ → ℕ) (k lv : ℕ) (j : ℕ) :
    listSet l k lv j =
      if (j = k ∧ k ≤ 9) ∨ (j = 2 ∧ (k = 9 ∨ k = 12)) ∨ (j = 9 ∧ k = 2) then lv
      else l j := by
  simp only [listSet]
  split_ifs <;>
    first
      | rfl
      | omega
      | (simp only [updN]; split_ifs <;> first | rfl | omega)
      | (simp only [updN]; first | rfl | omega)

set_option maxHeartbeats 1600000 in
lemma buildList_apply (ntarg ncent : ℤ) (lv : ℕ) (j : ℕ) :
    buildList ntarg ncent lv j =
      if ((j = (ntarg - 1).toNat ∧ (ntarg - 1).toNat ≤ 9) ∨
            (j = 2 ∧ ((ntarg - 1).toNat = 9 ∨ (ntarg - 1).toNat = 12)) ∨
            (j = 9 ∧ (ntarg - 1).toNat = 2)) ∨
          ((j = (ncent - 1).toNat ∧ (ncent - 1).toNat ≤ 9) ∨
            (j = 2 ∧ ((ncent - 1).toNat = 9 ∨ (ncent - 1).toNat = 12)) ∨
            (j = 9 ∧ (ncent - 1).toNat = 2)) then lv
      else 0 := by
  unfold buildList
  rw [listSet_apply, listSet_apply]
  split_ifs <;> first | rfl | omega

lemma buildList_comm (ntarg ncent : ℤ) (lv : ℕ) :
    buildList ntarg ncent lv = buildList ncent ntarg lv := by
  funext j
  rw [buildList_apply, buildList_apply]
  exact if_congr or_comm rfl rfl

lemma buildList_high (ntarg ncent : ℤ) (lv : ℕ) :
    ∀ k, 10 ≤ k → k ≤ 13 → buildList ntarg ncent lv k = 0 := by
  intro k hk10 _
  rw [buildList_apply]
  rw [if_neg]
  omega

lemma foldl_pres_mem {α β : Type} (P : α → Prop) (f : α → β → α) :
    ∀ (l : List β) (a : α), P a → (∀ x b, b ∈ l → P x → P (f x b)) →
      P (l.foldl f a) := by
  intro l
  induction l with
  | nil => intro a ha _; exact ha
  | cons b tl ih =>
    intro a ha hstep
    exact ih (f a b) (hstep a b (List.mem_cons_self b tl) ha)
      (fun x b2 hb2 => hstep x b2 (List.mem_cons_of_mem b hb2))

lemma stateStep_nut (ipt : ℕ → ℕ → ℕ) (lst : ℕ → ℕ) (rc : Bool) (cache : ℕ → ℚ)
    (t0 t1 aufac : ℚ) (n i : ℕ) (σ σ2 : SState) (hi : i < 15)
    (hlst : ∀ k, 10 ≤ k → k ≤ 13 → lst k = 0)
    (h : stateStep ipt lst rc cache t0 t1 aufac n i σ = POut.ok σ2) :
    σ2.nut = σ.nut := by
  by_cases h14 : i = 14
  · simp [stateStep, h14] at h
    split at h
    · split at h
      · cases h
      · cases h
        rfl
    · cases h
      rfl
  · by_cases h10 : i < 10
    · simp [stateStep, h14, h10] at h
      split at h
      · split at h
        · cases h
        · cases h
          rfl
      · cases h
        rfl
    · have hq : lst i = 0 := hlst i (by omega) (by omega)
      simp [stateStep, h14, h10, hq] at h
      rw [← h]

lemma runLoop_nut (ipt : ℕ → ℕ → ℕ) (lst : ℕ → ℕ) (rc : Bool) (cache : ℕ → ℚ)
    (t0 t1 aufac : ℚ) (σ0 : SState) (σ2 : SState)
    (hlst : ∀ k, 10 ≤ k → k ≤ 13 → lst k = 0)
    (h : runLoop ipt lst rc cache t0 t1 aufac σ0 = POut.ok σ2) :
    σ2.nut = σ0.nut := by
  unfold runLoop at h
  have main : ∀ x : POut SState,
      (∀ σ', x = POut.ok σ' → σ'.nut = σ0.nut) →
      (∀ σ', [1, 2, 4, 8].foldl
          (fun acc n =>
            (List.range 15).foldl
              (fun a i => loopStep ipt lst rc cache t0 t1 aufac n i a) acc)
          x = POut.ok σ' → σ'.nut = σ0.nut) := by
    intro x hx
    apply foldl_pres (fun y => ∀ σ', y = POut.ok σ' → σ'.nut = σ0.nut) _ _ x hx
    intro y n hy
    apply foldl_pres_mem (fun z => ∀ σ', z = POut.ok σ' → σ'.nut = σ0.nut) _
      (List.range 15) y hy
    intro z i hi hz
    have hi15 : i < 15 := List.mem_range.mp hi
    intro σ' hstep
    unfold loopStep at hstep
    match z, hz with
    | POut.panic, _ => cases hstep
    | POut.fail e, _ => cases hstep
    | POut.ok σz, hz =>
      have h1 := stateStep_nut ipt lst rc cache t0 t1 aufac n i σz σ' hi15 hlst hstep
      rw [h1]
      exact hz σz rfl
  exact main (POut.ok σ0) (fun σ' h' => by cases h'; rfl) σ2 h

lemma State_nut (eph : Eph) (et : ℚ) (lst : ℕ → ℕ) (pv : ℕ → ℕ → ℚ)
    (nut : ℕ → ℚ) (bary : ℕ) (e2 : Eph) (pv2 : ℕ → ℕ → ℚ) (nut2 : ℕ → ℚ)
    (lg : List (ℕ × ℕ))
    (hlst : ∀ k, 10 ≤ k → k ≤ 13 → lst k = 0)
    (h : State eph et lst pv nut bary = POut.ok (e2, pv2, nut2, lg)) :
    nut2 = nut := by
  simp only [State] at h
  by_cases hr : et < eph.ephemStart ∨ eph.ephemEnd < et
  · rw [if_pos hr] at h
    cases h
  · rw [if_neg hr] at h
    split at h
    · cases h
    · cases h
    · rename_i σ heq
      rw [POut.ok.injEq, Prod.mk.injEq, Prod.mk.injEq, Prod.mk.injEq] at h
      obtain ⟨_, _, hnut, _⟩ := h
      rw [← hnut]
      exact runLoop_nut _ _ _ _ _ _ _ _ _ hlst heq

lemma plephFix_comm (eph2 : Eph) (t c : ℤ) (lst : ℕ → ℕ) (pv : ℕ → ℕ → ℚ) :
    plephFix eph2 t c lst pv = plephFix eph2 c t lst pv := by
  unfold plephFix
  have h11 : (t = 11 ∨ c = 11) = (c = 11 ∨ t = 11) := propext or_comm
  have h12 : (t = 12 ∨ c = 12) = (c = 12 ∨ t = 12) := propext or_comm
  have h13 : (t = 13 ∨ c = 13) = (c = 13 ∨ t = 13) := propext or_comm
  have hem : (t * c = 30 ∧ t + c = 13) = (c * t = 30 ∧ c + t = 13) := by
    rw [mul_comm, add_comm]
  simp only [h11, h12, h13, hem]

/-- C3: for valid body codes 1–13 with target ≠ center, when both calls
succeed `Pleph` is exactly antisymmetric: the request mask built for (t,c)
is symmetric, so both calls compute identical body tables and apply
identical fix-ups, and the final subtraction negates componentwise (over
the exact rational model of the arithmetic). -/
theorem claim_C3_relative_antisymmetry (eph : Eph) (et : ℚ) (t c : ℤ) (cv : ℕ)
    (ht1 : 1 ≤ t) (ht13 : t ≤ 13) (hc1 : 1 ≤ c) (hc13 : c ≤ 13) (hne : t ≠ c)
    (h1 : isOkB (Pleph eph et t c cv) = true)
    (h2 : isOkB (Pleph eph et c t cv) = true) :
    plephRrd (Pleph eph et t c cv) =
      Option.map (List.map (fun x => -x)) (plephRrd (Pleph eph et c t cv)) := by
  have hq1 : ¬(14 ≤ t ∧ t ≤ 17) := by omega
  have hq2 : ¬(14 ≤ c ∧ c ≤ 17) := by omega
  have hw1 : ¬(13 < t ∨ 13 < c ∨ t < 1 ∨ c < 1) := by omega
  have hw2 : ¬(13 < c ∨ 13 < t ∨ c < 1 ∨ t < 1) := by omega
  have hne2 : ¬(c = t) := fun h => hne h.symm
  simp only [Pleph]
  rw [if_neg hne, if_neg hq1, if_neg hw1, if_neg hne2, if_neg hq2, if_neg hw2,
    buildList_comm c t]
  cases hS : State eph et (buildList t c (if cv ≠ 0 then 2 else 1)) zeroPv zeroFn 1 with
  | panic => simp [plephRrd]
  | fail e => simp [plephRrd]
  | ok r =>
    obtain ⟨e2x, pvx, nutx, lg⟩ := r
    have hnut : nutx = zeroFn :=
      State_nut eph et _ zeroPv zeroFn 1 e2x pvx nutx lg
        (buildList_high t c (if cv ≠ 0 then 2 else 1)) hS
    simp only [plephRrd, Option.map]
    rw [plephFix_comm e2x c t]
    rw [List.map_map]
    apply congrArg
    apply List.map_congr_left
    intro i _
    by_cases hilt : i < (if cv ≠ 0 then 2 else 1) * 3
    · simp only [Function.comp, if_pos hilt]
      ring
    · simp only [Function.comp, if_neg hilt, hnut, zeroFn]
      norm_num

theorem claim_C3_witness :
    plephRrd (Pleph ephA (1/2) 1 2 1) =
      Option.map (List.map (fun x => -x)) (plephRrd (Pleph ephA (1/2) 2 1 1)) :=
  claim_C3_relative_antisymmetry ephA (1/2) 1 2 1 (by decide) (by decide) (by decide)
    (by decide) (by decide) (by with_unfolding_all decide) (by with_unfolding_all decide)
